import Mathlib

/-!
# A verification model of the PreJsPy expression parser

This file contains a shallow embedding of the Python implementation in
`src/py/PreJsPy.py` (class `PreJsPy`): the configuration model, the scanning
primitives and the recursive-descent/precedence-climbing expression engine,
together with theorems about the embedded definitions.

Modelling conventions:
* Python strings are modelled as `List Char`; `self.__char()` (which returns a
  one-character string or `""`) is modelled as `Option Char`.
* The mutable cursor state (`__expr`, `__index`, `__length`) is modelled by the
  structure `State`; every "gobble" function returns its updated state.
* Python exceptions are modelled with `Except Err`; `Err.parsing` models
  `ParsingError(error, expr, index)` and `Err.valueError` models the
  `ValueError` that `float(...)` raises on a string without digits.
* The mutually recursive productions take an explicit fuel argument
  (`Err.outOfFuel` is a model artifact that the Python code cannot produce;
  `Parse` supplies fuel that is large enough for every actual run).
* `float(number)` is modelled exactly as a scaled decimal `mant · 10^(-scale)`
  (`PyFloat`); IEEE-754 rounding of large values is not modelled, which is
  irrelevant for the small constants appearing in the theorems below.
-/

set_option maxRecDepth 8000

namespace PreJsPy

/-- One-character strings of Python, `""` included, as `Option Char`. -/
def chStr : Option Char → List Char
  | none => []
  | some c => [c]

/-- Abbreviation to write concrete inputs: the characters of a string. -/
def chars (s : String) : List Char := s.data

/-- Exact decimal value `mant · 10^(-scale)`, the model of the `float` value
produced for a numeric literal.  (Exponents are folded in by
`parseFloat`.) -/
structure PyFloat where
  mant : Nat
  scale : Nat
deriving DecidableEq, Repr

/-- A configured literal value (Python `Any`): the shapes that occur as values
of the `Literals` table.  `list` models a mutable Python list, which is the
relevant case for configuration-aliasing questions. -/
inductive Value where
  | bool (b : Bool)
  | null
  | num (f : PyFloat)
  | str (s : List Char)
  | list (elems : List Value)

/-- The `kind` field of a `Literal` node: present for numeric and string
literals, absent (`none` in `Option LitKind`) for named literals. -/
inductive LitKind where
  | number
  | string
deriving DecidableEq, Repr

/-- AST nodes (the `ExpressionType` variants of the source, with the fields of
the corresponding TypedDicts). -/
inductive Expr where
  | compound (body : List Expr)
  | identifier (name : List Char)
  | member (computed : Bool) (object : Expr) (property : Expr)
  | literal (value : Value) (raw : List Char) (kind : Option LitKind)
  | call (arguments : List Expr) (callee : Expr)
  | unary (operator : List Char) (argument : Expr)
  | binary (operator : List Char) (left : Expr) (right : Expr)
  | conditional (test consequent alternate : Expr)
  | array (elements : List Expr)

/-- Failures of a parse call.  `parsing` is `ParsingError(error, expr, index)`;
`valueError` is the `ValueError` raised by Python's `float` on a digit-free
string (it carries the offending string); `outOfFuel` is a model artifact. -/
inductive Err where
  | parsing (error : List Char) (expr : List Char) (index : Nat)
  | valueError (number : List Char)
  | outOfFuel
deriving Repr

/-- Hexadecimal digit (lowercase), used by the model of `json.dumps`. -/
def hexDigit (n : Nat) : Char :=
  if n < 10 then Char.ofNat ('0'.toNat + n) else Char.ofNat ('a'.toNat + n - 10)

/-- Escape one character the way `json.dumps` (with its default
`ensure_ascii=True`) escapes characters inside a string literal.  Astral-plane
code points would be emitted as surrogate pairs by Python; this model emits a
single `\uXXXX` escape with the low 16 bits, which is exact for all code
points below `0x10000` (error messages in the claims are ASCII). -/
def jsonEscapeChar (c : Char) : List Char :=
  if c = '"' then ['\\', '"']
  else if c = '\\' then ['\\', '\\']
  else if c = '\n' then ['\\', 'n']
  else if c = '\r' then ['\\', 'r']
  else if c = '\t' then ['\\', 't']
  else if c = '\x08' then ['\\', 'b']
  else if c = '\x0c' then ['\\', 'f']
  else if c.toNat < 32 ∨ c.toNat ≥ 128 then
    let n := c.toNat % 65536
    ['\\', 'u', hexDigit (n / 4096 % 16), hexDigit (n / 256 % 16),
      hexDigit (n / 16 % 16), hexDigit (n % 16)]
  else [c]

/-- `json.dumps(s)` for a string `s`. -/
def jsonDumps (s : List Char) : List Char :=
  '"' :: (s.map jsonEscapeChar).flatten ++ ['"']

/-- `PreJsPy.__isDecimalDigit` (the `len(ch) == 1` guard is the `none` case). -/
def isDecimalDigit : Option Char → Bool
  | some c => decide ('0' ≤ c) && decide (c ≤ '9')
  | none => false

/-- `PreJsPy.__isIdentifierStart`. -/
def isIdentifierStart : Option Char → Bool
  | some c =>
    (c = '$') || (c = '_') || (decide ('A' ≤ c) && decide (c ≤ 'Z')) ||
      (decide ('a' ≤ c) && decide (c ≤ 'z')) || decide (c.toNat ≥ 128)
  | none => false

/-- `PreJsPy.__isIdentifierPart`. -/
def isIdentifierPart : Option Char → Bool
  | some c =>
    (c = '$') || (c = '_') || (decide ('A' ≤ c) && decide (c ≤ 'Z')) ||
      (decide ('a' ≤ c) && decide (c ≤ 'z')) ||
      (decide ('0' ≤ c) && decide (c ≤ '9')) || decide (c.toNat ≥ 128)
  | none => false

/-- Membership of a string in a list of strings (`to_check in self.__config["Operators"]["Unary"]`). -/
def memList : List (List Char) → List Char → Bool
  | [], _ => false
  | k :: rest, key => if k = key then true else memList rest key

/-- Dictionary lookup for the association-list model of a Python `dict`. -/
def assocLookup {β : Type} : List (List Char × β) → List Char → Option β
  | [], _ => none
  | (k, v) :: rest, key => if k = key then some v else assocLookup rest key

/-- `PreJsPy.__getMaxKeyLen`. -/
def getMaxKeyLen (o : List (List Char × Int)) : Nat :=
  match o with
  | [] => 0
  | _ => (o.map (fun kv => kv.1.length)).foldl max 0

/-- `PreJsPy.__getMaxMemLen`. -/
def getMaxMemLen (ary : List (List Char)) : Nat :=
  match ary with
  | [] => 0
  | _ => (ary.map (fun k => k.length)).foldl max 0

/-- The cursor state of one parse invocation (`__expr`, `__index`; the length
is `expr.length`). -/
structure State where
  expr : List Char
  index : Nat
deriving Repr

/-- `PreJsPy.__char`: the character at the cursor, `none` at or past the end. -/
def charAt (st : State) : Option Char := st.expr[st.index]?

/-- Loop body of `__gobbleSpaces`, structurally recursive on a counter that
bounds the number of remaining characters. -/
def gobbleSpacesAux : Nat → State → State
  | 0, st => st
  | n + 1, st =>
    match charAt st with
    | some c =>
      if c = ' ' ∨ c = '\t' then gobbleSpacesAux n { st with index := st.index + 1 }
      else st
    | none => st

/-- `PreJsPy.__gobbleSpaces`: advance the cursor over spaces and tabs. -/
def gobbleSpaces (st : State) : State :=
  gobbleSpacesAux (st.expr.length - st.index) st

/-- The `Members` feature record. -/
structure MembersConfig where
  static : Bool
  computed : Bool
deriving Repr

/-- The `Literals` feature record. -/
structure LiteralsConfig where
  numeric : Bool
  numericSeparator : List Char
  string : Bool
  array : Bool
deriving Repr

/-- The `Features` record. -/
structure FeaturesConfig where
  compound : Bool
  conditional : Bool
  identifiers : Bool
  calls : Bool
  members : MembersConfig
  literals : LiteralsConfig
deriving Repr

/-- The `Operators` record: literal-name table, unary-operator set, binary
operator/precedence table (Python dicts/lists as association lists). -/
structure OperatorsConfig where
  literals : List (List Char × Value)
  unary : List (List Char)
  binary : List (List Char × Int)

/-- A full configuration. -/
structure Config where
  operators : OperatorsConfig
  features : FeaturesConfig

/-- A parser instance: the active configuration plus the two derived maximum
operator spelling lengths (`__unaryOperatorLength`, `__binaryOperatorLength`). -/
structure Parser where
  config : Config
  unaryOperatorLength : Nat
  binaryOperatorLength : Nat

/-- `PreJsPy.GetDefaultConfig`. -/
def GetDefaultConfig : Config :=
  { operators :=
      { literals :=
          [(chars "true", Value.bool true), (chars "false", Value.bool false),
            (chars "null", Value.null)]
        unary := [chars "-", chars "!", chars "~", chars "+"]
        binary :=
          [(chars "||", 1), (chars "&&", 2), (chars "|", 3), (chars "^", 4),
            (chars "&", 5), (chars "==", 6), (chars "!=", 6), (chars "===", 6),
            (chars "!==", 6), (chars "<", 7), (chars ">", 7), (chars "<=", 7),
            (chars ">=", 7), (chars "<<", 8), (chars ">>", 8), (chars ">>>", 8),
            (chars "+", 9), (chars "-", 9), (chars "*", 10), (chars "/", 10),
            (chars "%", 10)] }
    features :=
      { compound := true
        conditional := true
        identifiers := true
        calls := true
        members := { static := true, computed := true }
        literals :=
          { numeric := true, numericSeparator := [], string := true,
            array := true } } }

/-- `PreJsPy.GetConfig`.  The Python method copies every dict/record level;
for the pure value model the copy is value-identical to the active
configuration.  The sharing of the literal *values* themselves (Python's
`dict.copy()` is shallow) is modelled explicitly in the heap-model section
below. -/
def GetConfig (p : Parser) : Config := p.config

/-- Partial `Operators` (TypedDict with `total=False`). -/
structure PartialOperatorsConfig where
  literals : Option (List (List Char × Value)) := none
  unary : Option (List (List Char)) := none
  binary : Option (List (List Char × Int)) := none

/-- Partial `Members`. -/
structure PartialMembersConfig where
  static : Option Bool := none
  computed : Option Bool := none

/-- Partial `Literals` features. -/
structure PartialLiteralsConfig where
  numeric : Option Bool := none
  numericSeparator : Option (List Char) := none
  string : Option Bool := none
  array : Option Bool := none

/-- Partial `Features`. -/
structure PartialFeaturesConfig where
  compound : Option Bool := none
  conditional : Option Bool := none
  identifiers : Option Bool := none
  calls : Option Bool := none
  members : Option PartialMembersConfig := none
  literals : Option PartialLiteralsConfig := none

/-- A partial configuration (`PartialConfig`). -/
structure PartialConfig where
  operators : Option PartialOperatorsConfig := none
  features : Option PartialFeaturesConfig := none

/-- The `if "Operators" in config` block of `SetConfig`: merge the present
operator tables, recomputing the derived length alongside a replaced table. -/
def setConfigOperators (p : Parser) (ops : PartialOperatorsConfig) : Parser :=
  let p :=
    match ops.literals with
    | none => p
    | some lits => { p with config.operators.literals := lits }
  let p :=
    match ops.unary with
    | none => p
    | some u =>
      { p with
        config.operators.unary := u
        unaryOperatorLength := getMaxMemLen u }
  match ops.binary with
  | none => p
  | some b =>
    { p with
      config.operators.binary := b
      binaryOperatorLength := getMaxKeyLen b }

/-- The `if "Members" in config["Features"]` block of `SetConfig`. -/
def setConfigMembers (p : Parser) (m : PartialMembersConfig) : Parser :=
  let p :=
    match m.computed with
    | none => p
    | some v => { p with config.features.members.computed := v }
  match m.static with
  | none => p
  | some v => { p with config.features.members.static := v }

/-- The `if "Literals" in config["Features"]` block of `SetConfig`. -/
def setConfigLiteralsF (p : Parser) (l : PartialLiteralsConfig) : Parser :=
  let p :=
    match l.array with
    | none => p
    | some v => { p with config.features.literals.array := v }
  let p :=
    match l.numeric with
    | none => p
    | some v => { p with config.features.literals.numeric := v }
  let p :=
    match l.numericSeparator with
    | none => p
    | some v => { p with config.features.literals.numericSeparator := v }
  match l.string with
  | none => p
  | some v => { p with config.features.literals.string := v }

/-- The `if "Features" in config` block of `SetConfig`. -/
def setConfigFeatures (p : Parser) (f : PartialFeaturesConfig) : Parser :=
  let p :=
    match f.compound with
    | none => p
    | some v => { p with config.features.compound := v }
  let p :=
    match f.conditional with
    | none => p
    | some v => { p with config.features.conditional := v }
  let p :=
    match f.identifiers with
    | none => p
    | some v => { p with config.features.identifiers := v }
  let p :=
    match f.calls with
    | none => p
    | some v => { p with config.features.calls := v }
  let p :=
    match f.members with
    | none => p
    | some m => setConfigMembers p m
  match f.literals with
  | none => p
  | some l => setConfigLiteralsF p l

/-- `PreJsPy.SetConfig`: merge the fields present in the partial configuration
into the active one, recompute the derived operator lengths when the
corresponding table is replaced, and return the resulting full configuration
(`return self.GetConfig()`). -/
def SetConfig (p : Parser) (config : Option PartialConfig) : Parser × Config :=
  let p :=
    match config with
    | none => p
    | some cfg =>
      let p :=
        match cfg.operators with
        | none => p
        | some ops => setConfigOperators p ops
      match cfg.features with
      | none => p
      | some f => setConfigFeatures p f
  (p, GetConfig p)

/-- The partial configuration with every field of `c` present: the shape of
`cast("PartialConfig", self.__config)` in `__init__`. -/
def partialOfConfig (c : Config) : PartialConfig :=
  { operators :=
      some
        { literals := some c.operators.literals
          unary := some c.operators.unary
          binary := some c.operators.binary }
    features :=
      some
        { compound := some c.features.compound
          conditional := some c.features.conditional
          identifiers := some c.features.identifiers
          calls := some c.features.calls
          members :=
            some
              { static := some c.features.members.static
                computed := some c.features.members.computed }
          literals :=
            some
              { numeric := some c.features.literals.numeric
                numericSeparator := some c.features.literals.numericSeparator
                string := some c.features.literals.string
                array := some c.features.literals.array } } }

/-- `PreJsPy.__init__`: start from the default configuration and call
`SetConfig` with all of its fields, which computes the two derived lengths
(modelled by placeholder `0` for the attributes before their first
assignment). -/
def initParser : Parser :=
  let p0 : Parser :=
    { config := GetDefaultConfig
      unaryOperatorLength := 0
      binaryOperatorLength := 0 }
  (SetConfig p0 (some (partialOfConfig GetDefaultConfig))).1

/-- `PreJsPy.__binaryPrecedence`: precedence of a binary operator, `0` if it is
not in the table. -/
def binaryPrecedence (p : Parser) (op_val : List Char) : Int :=
  match assocLookup p.config.operators.binary op_val with
  | none => 0
  | some prec => prec

/-- The shared longest-match shrink loop of `__gobbleBinaryOp` and of the unary
lookup in `__gobbleToken`: test `to_check`, then repeatedly chop the last
character off until a match or the empty string is reached.  Structurally
recursive on a counter that starts at `to_check.length` (exactly the number of
iterations the Python `while tc_len > 0` loop can make). -/
def shrinkLookupAux (mem : List Char → Bool) : Nat → List Char → Option (List Char)
  | 0, _ => none
  | n + 1, to_check =>
    if to_check.length = 0 then none
    else if mem to_check then some to_check
    else shrinkLookupAux mem n (to_check.take (to_check.length - 1))

/-- Longest-match lookup of a table entry at the front of `to_check`. -/
def shrinkLookup (mem : List Char → Bool) (to_check : List Char) : Option (List Char) :=
  shrinkLookupAux mem to_check.length to_check

/-- `PreJsPy.__gobbleBinaryOp`: skip spaces, then longest-match a binary
operator, advancing the cursor by the match length; the space skip is kept
even when no operator matches (as in the source). -/
def gobbleBinaryOp (p : Parser) (st : State) : Option (List Char) × State :=
  let st := gobbleSpaces st
  let to_check := (st.expr.drop st.index).take p.binaryOperatorLength
  match shrinkLookup (fun k => (assocLookup p.config.operators.binary k).isSome) to_check with
  | some op => (some op, { st with index := st.index + op.length })
  | none => (none, st)

/-- Fast path of `__gobbleDecimal` (no numeric separator): advance over
decimal digits. -/
def gobbleDecimalFastAux : Nat → State → State
  | 0, st => st
  | n + 1, st =>
    if isDecimalDigit (charAt st) then
      gobbleDecimalFastAux n { st with index := st.index + 1 }
    else st

/-- Slow path of `__gobbleDecimal` (separator configured): collect digits,
skip separator characters, stop at anything else. -/
def gobbleDecimalSlowAux (separator : List Char) : Nat → State → List Char × State
  | 0, st => ([], st)
  | n + 1, st =>
    let digit := charAt st
    if isDecimalDigit digit then
      let (number, st') := gobbleDecimalSlowAux separator n { st with index := st.index + 1 }
      (chStr digit ++ number, st')
    else if chStr digit ≠ separator then ([], st)
    else gobbleDecimalSlowAux separator n { st with index := st.index + 1 }

/-- `PreJsPy.__gobbleDecimal`: a run of decimal digits with the configured
numeric separator stripped. -/
def gobbleDecimal (p : Parser) (st : State) : List Char × State :=
  let separator := p.config.features.literals.numericSeparator
  if separator = [] then
    let st' := gobbleDecimalFastAux (st.expr.length - st.index) st
    ((st.expr.drop st.index).take (st'.index - st.index), st')
  else
    gobbleDecimalSlowAux separator (st.expr.length - st.index) st

/-- Leading decimal digits of a character list, and the rest. -/
def splitDigits : List Char → List Char × List Char
  | [] => ([], [])
  | c :: rest =>
    if isDecimalDigit (some c) then
      let (d, r) := splitDigits rest
      (c :: d, r)
    else ([], c :: rest)

/-- Numeric value of a list of decimal digits. -/
def digitsToNat (l : List Char) : Nat :=
  l.foldl (fun acc c => 10 * acc + (c.toNat - '0'.toNat)) 0

/-- Model of Python's `float(number)` on the digit strings produced by
`__gobbleNumericLiteral` (`digits [. digits] [(e|E) [+|-] digits]`): the exact
decimal value, or `none` when the mantissa contains no digit (Python then
raises `ValueError`).  IEEE-754 rounding is not modelled. -/
def parseFloat (s : List Char) : Option PyFloat :=
  let (intPart, r1) := splitDigits s
  let (fracPart, r2) :=
    match r1 with
    | '.' :: r => splitDigits r
    | _ => ([], r1)
  if intPart = [] ∧ fracPart = [] then none
  else
    match r2 with
    | [] => some ⟨digitsToNat (intPart ++ fracPart), fracPart.length⟩
    | e :: r3 =>
      if e = 'e' ∨ e = 'E' then
        let (sign, r4) :=
          match r3 with
          | '+' :: r => ((1 : Int), r)
          | '-' :: r => ((-1 : Int), r)
          | _ => ((1 : Int), r3)
        let (expDigits, r5) := splitDigits r4
        if expDigits = [] ∨ r5 ≠ [] then none
        else
          let m := digitsToNat (intPart ++ fracPart)
          let net : Int := sign * (digitsToNat expDigits : Int) - (fracPart.length : Int)
          if 0 ≤ net then some ⟨m * 10 ^ net.toNat, 0⟩
          else some ⟨m, (-net).toNat⟩
      else none

/-- `PreJsPy.__gobbleNumericLiteral`. -/
def gobbleNumericLiteral (p : Parser) (st0 : State) : Except Err (Expr × State) := do
  let start := st0.index
  -- gobble the number itself
  let (number1, st1) := gobbleDecimal p st0
  -- optional decimal marker and fractional digits
  let (number2, st2) :=
    if charAt st1 = some '.' then
      let st := { st1 with index := st1.index + 1 }
      let (d, st') := gobbleDecimal p st
      (number1 ++ '.' :: d, st')
    else (number1, st1)
  -- optional exponent
  let (number, st) ←
    (match charAt st2 with
      | some c =>
        if c = 'e' ∨ c = 'E' then
          let number3 := number2 ++ [c]
          let st3 := { st2 with index := st2.index + 1 }
          let (number4, st4) :=
            match charAt st3 with
            | some cs =>
              if cs = '+' ∨ cs = '-' then (number3 ++ [cs], { st3 with index := st3.index + 1 })
              else (number3, st3)
            | none => (number3, st3)
          let (exponent, st5) := gobbleDecimal p st4
          if exponent = [] then
            Except.error (.parsing
              (chars "Expected exponent after " ++ jsonDumps (number4 ++ chStr (charAt st5)))
              st5.expr st5.index)
          else Except.ok (number4 ++ exponent, st5)
        else Except.ok (number2, st2)
      | none => Except.ok (number2, st2) : Except Err (List Char × State))
  -- Check to make sure this isn't a variable name that start with a number (123abc)
  if isIdentifierStart (charAt st) then
    Except.error (.parsing
      (chars "Variable names cannot start with a number like " ++ jsonDumps (number ++ chStr (charAt st)))
      st.expr st.index)
  else
    -- value = float(number): a digit-free string raises ValueError
    match parseFloat number with
    | none => Except.error (.valueError number)
    | some value =>
      let raw :=
        if p.config.features.literals.numericSeparator ≠ [] then
          (st.expr.drop start).take (st.index - start)
        else number
      Except.ok (.literal (.num value) raw (some .number), st)

/-- Scan loop of `__gobbleStringLiteral`; returns `(closed, value, state)`. -/
def gobbleStringLiteralAux (quote : Char) : Nat → List Char → State → Bool × List Char × State
  | 0, s, st => (false, s, st)
  | n + 1, s, st =>
    if st.index < st.expr.length then
      match charAt st with
      | some c =>
        let st := { st with index := st.index + 1 }
        if c = quote then (true, s, st)
        else if c = '\\' then
          let ch2 := charAt st
          let st := { st with index := st.index + 1 }
          let esc : List Char :=
            match ch2 with
            | some 'n' => ['\n']
            | some 'r' => ['\r']
            | some 't' => ['\t']
            | some 'b' => ['\x08']
            | some 'f' => ['\x0c']
            | some 'v' => ['\x0B']
            | some '\\' => ['\\']
            | other => chStr other
          gobbleStringLiteralAux quote n (s ++ esc) st
        else gobbleStringLiteralAux quote n (s ++ [c]) st
      | none => (false, s, st)
    else (false, s, st)

/-- `PreJsPy.__gobbleStringLiteral`.  (The function is only invoked with the
cursor on a quote character; the `none` fallback is unreachable.) -/
def gobbleStringLiteral (_p : Parser) (st : State) : Except Err (Expr × State) :=
  let start := st.index
  match charAt st with
  | some quote =>
    let st := { st with index := st.index + 1 }
    let (closed, s, st') := gobbleStringLiteralAux quote (st.expr.length - st.index) [] st
    if closed then
      Except.ok
        (.literal (.str s) ((st'.expr.drop start).take (st'.index - start)) (some .string), st')
    else
      Except.error (.parsing (chars "Unclosed quote after " ++ jsonDumps s) st'.expr st'.index)
  | none => Except.error .outOfFuel

/-- Scan loop of `__gobbleIdentifier`: advance over identifier-part
characters while inside the input. -/
def gobbleIdentifierAux : Nat → State → State
  | 0, st => st
  | n + 1, st =>
    if st.index < st.expr.length then
      if isIdentifierPart (charAt st) then gobbleIdentifierAux n { st with index := st.index + 1 }
      else st
    else st

/-- `PreJsPy.__gobbleIdentifier`: an identifier, returned as a `Literal` node
when the name is a configured literal, as an `Identifier` otherwise (a fatal
error when identifiers are disabled and the name is unknown). -/
def gobbleIdentifier (p : Parser) (st : State) : Except Err (Expr × State) :=
  match charAt st with
  | none => Except.error (.parsing (chars "Expected literal") st.expr st.index)
  | some ch =>
    if ¬ isIdentifierStart (some ch) then
      Except.error (.parsing (chars "Unexpected " ++ jsonDumps [ch]) st.expr st.index)
    else
      let start := st.index
      let st1 := { st with index := st.index + 1 }
      let st2 := gobbleIdentifierAux (st1.expr.length - st1.index) st1
      let identifier := (st2.expr.drop start).take (st2.index - start)
      match assocLookup p.config.operators.literals identifier with
      | some v => Except.ok (.literal v identifier none, st2)
      | none =>
        if ¬ p.config.features.identifiers then
          Except.error (.parsing (chars "Unknown literal \"" ++ identifier ++ chars "\"")
            st2.expr st2.index)
        else Except.ok (.identifier identifier, st2)

/-- The inner reduce loop of `__gobbleBinaryExpression`:
`while (len(ops) > 0) and precedence < ops[-1]["precedence"]`, popping two
operands and one operator and pushing the combined `BinaryExpression`.
Stacks are stored top-first (Python's `list.append`/`pop`/`[-1]` become
cons/tail/head).  The loop preserves `exprs.length = ops.length + 1`, so the
fallthrough case (fewer than two operands with a pending operator, on which
Python would crash) is unreachable. -/
def reduceStack (precedence : Int) :
    List Expr → List (List Char × Int) → List Expr × List (List Char × Int)
  | right :: left :: exprs, (opv, opp) :: ops =>
    if precedence < opp then
      reduceStack precedence (Expr.binary opv left right :: exprs) ops
    else (right :: left :: exprs, (opv, opp) :: ops)
  | exprs, ops => (exprs, ops)

/-- The final fold of `__gobbleBinaryExpression`: starting from the topmost
operand, walk the remaining stacks from the end
(`node = {op: ops[j], left: exprs[i-1], right: node}`, `i`, `j` descending;
top-first stacks make this a straight walk). -/
def foldStack : Expr → List Expr → List (List Char × Int) → Expr
  | node, e :: es, (opv, _) :: ops => foldStack (Expr.binary opv e node) es ops
  | node, _, _ => node

mutual

/-- `PreJsPy.__gobbleExpression`: a conditional expression when the feature is
enabled and a `?` follows the test, otherwise a binary expression. -/
def gobbleExpression (p : Parser) : Nat → State → Except Err (Option Expr × State)
  | 0, _ => Except.error .outOfFuel
  | fuel + 1, st => do
    if ¬ p.config.features.conditional then
      gobbleBinaryExpression p fuel st
    else do
      let (test?, st) ← gobbleBinaryExpression p fuel st
      let st := gobbleSpaces st
      -- not a ternary expression => return immediately (also when test is None)
      match test? with
      | none => Except.ok (none, st)
      | some test =>
        if charAt st ≠ some '?' then Except.ok (some test, st)
        else do
          let st := { st with index := st.index + 1 }
          let (consequent?, st) ← gobbleExpression p fuel st
          match consequent? with
          | none => Except.error (.parsing (chars "Expected expression") st.expr st.index)
          | some consequent =>
            let st := gobbleSpaces st
            if charAt st ≠ some ':' then
              Except.error (.parsing (chars "Expected " ++ jsonDumps [':']) st.expr st.index)
            else do
              let st := { st with index := st.index + 1 }
              let (alternate?, st) ← gobbleExpression p fuel st
              match alternate? with
              | none => Except.error (.parsing (chars "Expected expression") st.expr st.index)
              | some alternate =>
                Except.ok (some (.conditional test consequent alternate), st)

/-- `PreJsPy.__gobbleBinaryExpression`: leftmost token, shunting loop, final
fold.  The operand stack starts as `[left]` and is never empty, so the empty
fallthrough is unreachable. -/
def gobbleBinaryExpression (p : Parser) : Nat → State → Except Err (Option Expr × State)
  | 0, _ => Except.error .outOfFuel
  | fuel + 1, st => do
    let (left?, st) ← gobbleToken p fuel st
    match left? with
    | none => Except.ok (none, st)
    | some left => do
      let (exprs, ops, st) ← gobbleBinLoop p fuel [left] [] st
      match exprs with
      | [] => Except.error .outOfFuel
      | node :: rest => Except.ok (some (foldStack node rest ops), st)

/-- The `while True` shunting loop of `__gobbleBinaryExpression`: scan a
binary operator (consuming its characters), stop if there is none or its
precedence is `0`, otherwise reduce, gobble the mandatory next token and push
operand and operator. -/
def gobbleBinLoop (p : Parser) :
    Nat → List Expr → List (List Char × Int) → State →
      Except Err (List Expr × List (List Char × Int) × State)
  | 0, _, _, _ => Except.error .outOfFuel
  | fuel + 1, exprs, ops, st =>
    match gobbleBinaryOp p st with
    | (none, st) => Except.ok (exprs, ops, st)
    | (some value, st) =>
      let precedence := binaryPrecedence p value
      if precedence = 0 then Except.ok (exprs, ops, st)
      else do
        let (exprs, ops) := reduceStack precedence exprs ops
        let (node?, st) ← gobbleToken p fuel st
        match node? with
        | none =>
          Except.error (.parsing (chars "Expected expression after " ++ jsonDumps value)
            st.expr st.index)
        | some node => gobbleBinLoop p fuel (node :: exprs) ((value, precedence) :: ops) st

/-- `PreJsPy.__gobbleToken`: dispatch on the next non-space character. -/
def gobbleToken (p : Parser) : Nat → State → Except Err (Option Expr × State)
  | 0, _ => Except.error .outOfFuel
  | fuel + 1, st =>
    let st := gobbleSpaces st
    let ch := charAt st
    if p.config.features.literals.numeric ∧ (isDecimalDigit ch ∨ ch = some '.') then do
      let (e, st) ← gobbleNumericLiteral p st
      Except.ok (some e, st)
    else if p.config.features.literals.string ∧ (ch = some '\'' ∨ ch = some '"') then do
      let (e, st) ← gobbleStringLiteral p st
      Except.ok (some e, st)
    else if p.config.features.literals.array ∧ ch = some '[' then do
      let (e, st) ← gobbleArray p fuel st
      Except.ok (some e, st)
    else
      let to_check := (st.expr.drop st.index).take p.unaryOperatorLength
      match shrinkLookup (fun k => memList p.config.operators.unary k) to_check with
      | some op => do
        let st := { st with index := st.index + op.length }
        let (argument?, st) ← gobbleToken p fuel st
        match argument? with
        | none =>
          Except.error (.parsing (chars "Expected argument for unary expression")
            st.expr st.index)
        | some argument => Except.ok (some (.unary op argument), st)
      | none =>
        if isIdentifierStart ch ∨ ch = some '(' then gobbleVariable p fuel st
        else Except.ok (none, st)

/-- `PreJsPy.__gobbleVariable`: a group or identifier followed by postfix
member/call suffixes. -/
def gobbleVariable (p : Parser) : Nat → State → Except Err (Option Expr × State)
  | 0, _ => Except.error .outOfFuel
  | fuel + 1, st =>
    if charAt st = some '(' then do
      let (node?, st) ← gobbleGroup p fuel st
      match node? with
      | none => Except.ok (none, st)
      | some node => do
        let (node, st) ← gobbleVarLoop p fuel node st
        Except.ok (some node, st)
    else do
      let (node, st) ← gobbleIdentifier p st
      let (node, st) ← gobbleVarLoop p fuel node st
      Except.ok (some node, st)

/-- The suffix loop of `__gobbleVariable`: after skipping spaces the cursor is
advanced over the next character; if it triggers an enabled member/call
production the suffix is consumed and the loop continues, otherwise the
advance is undone and the loop stops. -/
def gobbleVarLoop (p : Parser) : Nat → Expr → State → Except Err (Expr × State)
  | 0, _, _ => Except.error .outOfFuel
  | fuel + 1, node, st =>
    let st := gobbleSpaces st
    let ch := charAt st
    let st := { st with index := st.index + 1 }
    if p.config.features.members.static ∧ ch = some '.' then do
      let st := gobbleSpaces st
      let (prop, st) ← gobbleIdentifier p st
      gobbleVarLoop p fuel (.member false node prop) st
    else if p.config.features.members.computed ∧ ch = some '[' then do
      let (prop?, st) ← gobbleExpression p fuel st
      match prop? with
      | none => Except.error (.parsing (chars "Expected expression") st.expr st.index)
      | some prop =>
        let node := Expr.member true node prop
        let st := gobbleSpaces st
        if charAt st ≠ some ']' then
          Except.error (.parsing (chars "Unclosed " ++ jsonDumps ['[']) st.expr st.index)
        else gobbleVarLoop p fuel node { st with index := st.index + 1 }
    else if p.config.features.calls ∧ ch = some '(' then do
      let (args, st) ← gobbleArguments p fuel '(' ')' st
      gobbleVarLoop p fuel (.call args node) st
    else
      Except.ok (node, { st with index := st.index - 1 })

/-- `PreJsPy.__gobbleGroup`: `(`, an expression, a mandatory `)`.  The inner
expression may be `None`, which the caller receives unchanged. -/
def gobbleGroup (p : Parser) : Nat → State → Except Err (Option Expr × State)
  | 0, _ => Except.error .outOfFuel
  | fuel + 1, st => do
    let st := { st with index := st.index + 1 }
    let (node?, st) ← gobbleExpression p fuel st
    let st := gobbleSpaces st
    if charAt st ≠ some ')' then
      Except.error (.parsing (chars "Unclosed " ++ jsonDumps ['(']) st.expr st.index)
    else Except.ok (node?, { st with index := st.index + 1 })

/-- `PreJsPy.__gobbleArguments`: expressions separated by single commas up to
the terminator, which must be consumed before the input ends. -/
def gobbleArguments (p : Parser) : Nat → Char → Char → State → Except Err (List Expr × State)
  | 0, _, _, _ => Except.error .outOfFuel
  | fuel + 1, startCh, endCh, st => gobbleArgsLoop p fuel startCh endCh [] false st

/-- The `while self.__index < self.__length` loop of `__gobbleArguments`,
carrying the collected arguments and the `hadComma` flag; falling out of the
loop without consuming the terminator is the "Unclosed" error. -/
def gobbleArgsLoop (p : Parser) :
    Nat → Char → Char → List Expr → Bool → State → Except Err (List Expr × State)
  | 0, _, _, _, _, _ => Except.error .outOfFuel
  | fuel + 1, startCh, endCh, args, hadComma, st =>
    if st.index < st.expr.length then
      let st := gobbleSpaces st
      let ch := charAt st
      if ch = some endCh then Except.ok (args, { st with index := st.index + 1 })
      else if ch = some ',' then
        if hadComma then
          Except.error (.parsing (chars "Duplicate " ++ jsonDumps [',']) st.expr st.index)
        else gobbleArgsLoop p fuel startCh endCh args true { st with index := st.index + 1 }
      else
        let wantsComma := decide (args.length > 0)
        if wantsComma ≠ hadComma then
          if wantsComma then
            Except.error (.parsing (chars "Expected " ++ jsonDumps [',']) st.expr st.index)
          else
            Except.error (.parsing (chars "Unexpected " ++ jsonDumps [',']) st.expr st.index)
        else do
          let (node?, st) ← gobbleExpression p fuel st
          match node? with
          | none => Except.error (.parsing (chars "Expected " ++ jsonDumps [',']) st.expr st.index)
          | some (Expr.compound _) =>
            Except.error (.parsing (chars "Expected " ++ jsonDumps [',']) st.expr st.index)
          | some node => gobbleArgsLoop p fuel startCh endCh (args ++ [node]) false st
    else Except.error (.parsing (chars "Unclosed " ++ jsonDumps [startCh]) st.expr st.index)

/-- `PreJsPy.__gobbleArray`: `[`, then arguments up to `]`. -/
def gobbleArray (p : Parser) : Nat → State → Except Err (Expr × State)
  | 0, _ => Except.error .outOfFuel
  | fuel + 1, st => do
    let st := { st with index := st.index + 1 }
    let (elems, st) ← gobbleArguments p fuel '[' ']' st
    Except.ok (.array elems, st)

end

/-- The main loop of `__gobbleCompound`: skip separators (`;`, `,`), gobble
expressions until one fails to appear. -/
def gobbleCompoundLoop (p : Parser) : Nat → List Expr → State → Except Err (List Expr × State)
  | 0, _, _ => Except.error .outOfFuel
  | fuel + 1, nodes, st =>
    if st.index < st.expr.length then
      let ch := charAt st
      if ch = some ';' ∨ ch = some ',' then
        gobbleCompoundLoop p fuel nodes { st with index := st.index + 1 }
      else do
        let (node?, st) ← gobbleExpression p fuel st
        match node? with
        | none => Except.ok (nodes, st)
        | some node => gobbleCompoundLoop p fuel (nodes ++ [node]) st
    else Except.ok (nodes, st)

/-- `PreJsPy.__gobbleCompound`: the top production.  A single expression is
returned unwrapped; otherwise a `Compound` node is produced (an error when
the feature is disabled), after checking that the whole input was consumed. -/
def gobbleCompound (p : Parser) (fuel : Nat) (st : State) : Except Err Expr := do
  let (nodes, st) ← gobbleCompoundLoop p fuel [] st
  -- didn't find an expression => something went wrong
  if st.index < st.expr.length then
    Except.error (.parsing (chars "Unexpected " ++ jsonDumps (chStr (charAt st)))
      st.expr st.index)
  else
    match nodes with
    | [node] => Except.ok node
    | nodes =>
      if ¬ p.config.features.compound then
        Except.error (.parsing (chars "Unexpected compound expression") st.expr st.index)
      else Except.ok (.compound nodes)

/-- Fuel for one parse invocation: an upper bound on the recursion depth and
loop counts of the engine, which consumes at least one character per level
within a small constant factor. -/
def parseFuel (expr : List Char) : Nat := 8 * expr.length + 32

/-- `PreJsPy.Parse`: parse from a fresh cursor state.  (The Python `finally`
block that clears the cursor fields has no observable effect in this
state-passing model.) -/
def Parse (p : Parser) (expr : List Char) : Except Err Expr :=
  gobbleCompound p (parseFuel expr) { expr := expr, index := 0 }

/-- `PreJsPy.TryParse`: `(result, None)` on success, `(None, error)` when a
`ParsingError` is raised; any other exception (e.g. the `ValueError` from
`float`) propagates, modelled by the outer `Except.error`. -/
def TryParse (p : Parser) (expr : List Char) :
    Except Err (Option Expr × Option Err) :=
  match Parse p expr with
  | .ok result => .ok (some result, none)
  | .error (.parsing msg ex idx) => .ok (none, some (.parsing msg ex idx))
  | .error e => .error e

/-! ## Derived instances and example configurations used in the theorems -/

/-- Shorthand for the numeric `Literal` node of a small integer. -/
def numLit (n : Nat) (raw : String) : Expr :=
  .literal (.num ⟨n, 0⟩) (chars raw) (some .number)

/-- The default instance with the `Calls` feature disabled. -/
def noCallsParser : Parser :=
  (SetConfig initParser (some { features := some { calls := some false } })).1

/-- The default instance with the binary operator table replaced by
`{"+": 0}`. -/
def prec0Parser : Parser :=
  (SetConfig initParser (some { operators := some { binary := some [(chars "+", 0)] } })).1

/-- The default instance with the unary operator set replaced by
`{"!", "!!"}` (so the derived maximum unary spelling length is 2). -/
def c6UnaryParser : Parser :=
  (SetConfig initParser (some { operators := some { unary := some [chars "!", chars "!!"] } })).1

/-! ## Structural predicates on AST nodes -/

mutual

/-- `e` contains no `Compound` node (at the root or anywhere below). -/
def compoundFree : Expr → Bool
  | .compound _ => false
  | .identifier _ => true
  | .literal _ _ _ => true
  | .member _ o pr => compoundFree o && compoundFree pr
  | .call args callee => compoundFree callee && compoundFreeList args
  | .unary _ a => compoundFree a
  | .binary _ l r => compoundFree l && compoundFree r
  | .conditional t c a => compoundFree t && compoundFree c && compoundFree a
  | .array elems => compoundFreeList elems

/-- All members of the list are `compoundFree`. -/
def compoundFreeList : List Expr → Bool
  | [] => true
  | e :: es => compoundFree e && compoundFreeList es

end

/-- The node shapes `__gobbleIdentifier` can return: an `Identifier`, or a
`Literal` without a `kind` tag (a configured literal name). -/
def isIdentOrNamedLiteral : Expr → Bool
  | .identifier _ => true
  | .literal _ _ none => true
  | _ => false

/-- Is the node an `Identifier`? -/
def isIdentifierNode : Expr → Bool
  | .identifier _ => true
  | _ => false

/-- Is the node a `Literal` (of any kind)? -/
def isLiteralNode : Expr → Bool
  | .literal _ _ _ => true
  | _ => false

mutual

/-- Every static member access (`MemberExpression` with `computed = false`)
anywhere in `e` has a property produced by the identifier production: an
`Identifier` node or a kind-less `Literal` node. -/
def memberOk : Expr → Bool
  | .compound body => memberOkList body
  | .identifier _ => true
  | .literal _ _ _ => true
  | .member c o pr => (c || isIdentOrNamedLiteral pr) && memberOk o && memberOk pr
  | .call args callee => memberOk callee && memberOkList args
  | .unary _ a => memberOk a
  | .binary _ l r => memberOk l && memberOk r
  | .conditional t c a => memberOk t && memberOk c && memberOk a
  | .array elems => memberOkList elems

/-- All members of the list satisfy `memberOk`. -/
def memberOkList : List Expr → Bool
  | [] => true
  | e :: es => memberOk e && memberOkList es

end

/-- The invariant every expression produced by the engine's sub-productions
satisfies. -/
def NodeInv (e : Expr) : Prop := compoundFree e = true ∧ memberOk e = true

/-- `NodeInv` lifted to an optional result. -/
def OptInv : Option Expr → Prop
  | none => True
  | some e => NodeInv e

/-- `NodeInv` for every member of a list. -/
def AllInv (l : List Expr) : Prop := ∀ e ∈ l, NodeInv e

/-- Shape of a successful parse root: a `Compound` node may appear only with
the feature enabled, never with exactly one element, and only with
compound-free children; any other root is compound-free. -/
def parseRootOk (p : Parser) (e : Expr) : Prop :=
  match e with
  | .compound body =>
    p.config.features.compound = true ∧ body.length ≠ 1 ∧ compoundFreeList body = true
  | e => compoundFree e = true

/-! ## A heap model for the literal-value entries of the configuration

`GetConfig` copies the configuration with `dict.copy()` at every level.  For
the `Literals` table this is a *shallow* copy: the fresh dict maps each name
to the same value object.  To reason about in-place mutation of such a shared
object the following model makes the object identities explicit: the literal
table maps names to addresses and a store maps addresses to values. -/

/-- An object address in the Python heap. -/
abbrev Addr := Nat

/-- A heap-level literal table: names mapped to value objects (addresses). -/
abbrev HeapLiterals := List (List Char × Addr)

/-- A store assigning the current value to every address. -/
abbrev Store := Addr → Value

/-- `self.__config["Operators"]["Literals"].copy()`: a fresh dict with the
same name-to-object entries; the value objects (addresses) are shared. -/
def copyLiteralsDict (lits : HeapLiterals) : HeapLiterals :=
  lits.map (fun kv => kv)

/-- The value-level literal table obtained by dereferencing every entry: this
is what `__gobbleIdentifier` reads when it looks a name up. -/
def derefLiterals (lits : HeapLiterals) (store : Store) : List (List Char × Value) :=
  lits.map (fun kv => (kv.1, store kv.2))

/-- A parser instance whose literal values live in `store` at the addresses
recorded in `lits` (the rest of the instance is taken from `p`). -/
def parserOfHeap (p : Parser) (lits : HeapLiterals) (store : Store) : Parser :=
  { p with config.operators.literals := derefLiterals lits store }

/-- In-place mutation of the object at address `a` (e.g. `list.append`). -/
def mutate (store : Store) (a : Addr) (v : Value) : Store :=
  fun x => if x = a then v else store x

/-- The literal table of the instance used in the aliasing theorems: one
literal name `x` whose value is the mutable object at address `0`. -/
def aliasLits : HeapLiterals := [(chars "x", 0)]

/-- A store where the object at every address is the one-element list `[1.0]`. -/
def aliasStore : Store := fun _ => .list [.num ⟨1, 0⟩]

/-! ## Helper lemmas -/

theorem exceptBind_ok {ε α β : Type} {x : Except ε α} {f : α → Except ε β} {b : β}
    (h : x >>= f = .ok b) : ∃ a, x = .ok a ∧ f a = .ok b := by
  cases x with
  | error e => simp [Bind.bind, Except.bind] at h
  | ok a => exact ⟨a, rfl, by simpa [Bind.bind, Except.bind] using h⟩

theorem gobbleSpacesAux_expr : ∀ (n : Nat) (st : State), (gobbleSpacesAux n st).expr = st.expr := by
  intro n
  induction n with
  | zero => intro st; rfl
  | succ n ih =>
    intro st
    unfold gobbleSpacesAux
    cases charAt st with
    | none => rfl
    | some c =>
      by_cases hc : c = ' ' ∨ c = '\t'
      · simpa [hc] using ih { st with index := st.index + 1 }
      · simp [hc]

theorem gobbleSpaces_expr (st : State) : (gobbleSpaces st).expr = st.expr :=
  gobbleSpacesAux_expr _ _

theorem gobbleIdentifier_shape {p : Parser} {st : State} {e : Expr} {st' : State}
    (h : gobbleIdentifier p st = .ok (e, st')) : isIdentOrNamedLiteral e = true := by
  unfold gobbleIdentifier at h
  split at h
  · simp at h
  · split at h
    · simp at h
    · simp only [] at h
      split at h
      · cases h; rfl
      · split at h
        · simp at h
        · cases h; rfl

theorem NodeInv_of_identOrNamed {e : Expr} (h : isIdentOrNamedLiteral e = true) :
    NodeInv e := by
  cases e <;> simp [isIdentOrNamedLiteral] at h <;>
    exact ⟨by simp [compoundFree], by simp [memberOk]⟩

theorem NodeInv_of_literal {e : Expr} (h : isLiteralNode e = true) : NodeInv e := by
  cases e <;> simp [isLiteralNode] at h
  exact ⟨by simp [compoundFree], by simp [memberOk]⟩

theorem gobbleNumericLiteral_shape {p : Parser} {st : State} {e : Expr} {st' : State}
    (h : gobbleNumericLiteral p st = .ok (e, st')) : isLiteralNode e = true := by
  unfold gobbleNumericLiteral at h
  obtain ⟨⟨number, st1⟩, -, h⟩ := exceptBind_ok h
  simp only at h
  split at h
  · simp at h
  · split at h
    · simp at h
    · cases h; rfl

theorem gobbleStringLiteral_shape {p : Parser} {st : State} {e : Expr} {st' : State}
    (h : gobbleStringLiteral p st = .ok (e, st')) : isLiteralNode e = true := by
  unfold gobbleStringLiteral at h
  split at h
  · simp only [] at h
    split at h
    · cases h; rfl
    · simp at h
  · simp at h

theorem NodeInv_binary {v : List Char} {l r : Expr} (hl : NodeInv l) (hr : NodeInv r) :
    NodeInv (.binary v l r) :=
  ⟨by simp [compoundFree, hl.1, hr.1], by simp [memberOk, hl.2, hr.2]⟩

theorem AllInv_nil : AllInv [] := by intro e he; cases he

theorem AllInv_cons {e : Expr} {l : List Expr} (he : NodeInv e) (hl : AllInv l) :
    AllInv (e :: l) := by
  intro x hx
  cases hx with
  | head => exact he
  | tail _ hx => exact hl _ hx

theorem reduceStack_inv (prec : Int) :
    ∀ (ops : List (List Char × Int)) (exprs : List Expr), AllInv exprs →
      AllInv (reduceStack prec exprs ops).1 := by
  intro ops
  induction ops with
  | nil =>
    intro exprs h
    match exprs with
    | [] => simpa [reduceStack] using h
    | [e] => simpa [reduceStack] using h
    | r :: l :: rest => simpa [reduceStack] using h
  | cons op ops ih =>
    intro exprs h
    match exprs with
    | [] => simpa [reduceStack] using h
    | [e] => simpa [reduceStack] using h
    | r :: l :: rest =>
      obtain ⟨opv, opp⟩ := op
      by_cases hp : prec < opp
      · rw [reduceStack, if_pos hp]
        exact ih _ (AllInv_cons
          (NodeInv_binary (h _ (by simp)) (h _ (by simp))) (fun e he => h _ (by simp [he])))
      · rw [reduceStack, if_neg hp]
        exact h

theorem foldStack_inv :
    ∀ (es : List Expr) (ops : List (List Char × Int)) (node : Expr),
      NodeInv node → AllInv es → NodeInv (foldStack node es ops) := by
  intro es
  induction es with
  | nil =>
    intro ops node hn _
    cases ops <;> simpa [foldStack] using hn
  | cons e es ih =>
    intro ops node hn ha
    cases ops with
    | nil => simpa [foldStack] using hn
    | cons op ops =>
      obtain ⟨opv, opp⟩ := op
      rw [foldStack]
      exact ih _ _ (NodeInv_binary (ha _ (by simp)) hn) (fun x hx => ha _ (by simp [hx]))

theorem OptInv_some {e : Expr} (h : OptInv (some e)) : NodeInv e := h

theorem AllInv_append {l m : List Expr} (hl : AllInv l) (hm : AllInv m) :
    AllInv (l ++ m) := fun e he => (List.mem_append.mp he).elim (hl e) (hm e)

theorem AllInv_list {l : List Expr} (h : AllInv l) :
    compoundFreeList l = true ∧ memberOkList l = true := by
  induction l with
  | nil => exact ⟨by simp [compoundFreeList], by simp [memberOkList]⟩
  | cons e es ih =>
    have he := h e (by simp)
    have hes := ih (fun x hx => h x (by simp [hx]))
    exact ⟨by simp [compoundFreeList, he.1, hes.1], by simp [memberOkList, he.2, hes.2]⟩

theorem NodeInv_unary {v : List Char} {a : Expr} (ha : NodeInv a) : NodeInv (.unary v a) :=
  ⟨by simp [compoundFree, ha.1], by simp [memberOk, ha.2]⟩

theorem NodeInv_conditional {t c a : Expr} (ht : NodeInv t) (hc : NodeInv c)
    (ha : NodeInv a) : NodeInv (.conditional t c a) :=
  ⟨by simp [compoundFree, ht.1, hc.1, ha.1], by simp [memberOk, ht.2, hc.2, ha.2]⟩

theorem NodeInv_memberComputed {o pr : Expr} (ho : NodeInv o) (hp : NodeInv pr) :
    NodeInv (.member true o pr) :=
  ⟨by simp [compoundFree, ho.1, hp.1], by simp [memberOk, ho.2, hp.2]⟩

theorem NodeInv_memberStatic {o pr : Expr} (ho : NodeInv o) (hp : NodeInv pr)
    (hs : isIdentOrNamedLiteral pr = true) : NodeInv (.member false o pr) :=
  ⟨by simp [compoundFree, ho.1, hp.1], by simp [memberOk, ho.2, hp.2, hs]⟩

theorem NodeInv_call {args : List Expr} {callee : Expr} (hc : NodeInv callee)
    (ha : AllInv args) : NodeInv (.call args callee) := by
  obtain ⟨h1, h2⟩ := AllInv_list ha
  exact ⟨by simp [compoundFree, hc.1, h1], by simp [memberOk, hc.2, h2]⟩

theorem NodeInv_array {elems : List Expr} (ha : AllInv elems) : NodeInv (.array elems) := by
  obtain ⟨h1, h2⟩ := AllInv_list ha
  exact ⟨by simp [compoundFree, h1], by simp [memberOk, h2]⟩

theorem shrinkLookupAux_spec (mem : List Char → Bool) :
    ∀ (n : Nat) (tc : List Char), tc.length = n →
      ∀ op, shrinkLookupAux mem n tc = some op →
        mem op = true ∧ tc.take op.length = op ∧
        ∀ k, mem k = true → tc.take k.length = k → k.length ≤ op.length := by
  intro n
  induction n with
  | zero =>
    intro tc hlen op h
    simp [shrinkLookupAux] at h
  | succ n ih =>
    intro tc hlen op h
    unfold shrinkLookupAux at h
    rw [hlen] at h
    simp only [Nat.succ_ne_zero, if_false] at h
    by_cases hm : mem tc
    · rw [if_pos hm] at h
      cases h
      refine ⟨hm, List.take_length tc, ?_⟩
      intro k _ hpre
      have hk' := congrArg List.length hpre
      rw [List.length_take, hlen] at hk'
      omega
    · rw [if_neg hm] at h
      have hlen' : (tc.take (n + 1 - 1)).length = n := by
        rw [List.length_take]; omega
      obtain ⟨h1, h2, h3⟩ := ih _ hlen' op h
      have hopn : op.length ≤ n := by
        have h2' := congrArg List.length h2
        rw [List.length_take, hlen'] at h2'
        omega
      refine ⟨h1, ?_, ?_⟩
      · conv_rhs => rw [← h2]
        rw [List.take_take]
        congr 1
        omega
      · intro k hk hpre
        have hk' := congrArg List.length hpre
        rw [List.length_take, hlen] at hk'
        rcases Nat.lt_or_ge k.length (n + 1) with hlt | hge
        · refine h3 k hk ?_
          rw [List.take_take]
          have hmin : min k.length (n + 1 - 1) = k.length := by omega
          rw [hmin]
          exact hpre
        · exfalso
          have hkn : k.length = n + 1 := by omega
          have hktc : k = tc := by rw [← hpre, hkn, ← hlen, List.take_length]
          rw [hktc] at hk
          exact hm hk

/-- The longest-match property of the shared shrink loop, for any operator
table membership test `mem` and derived maximum length `maxLen`: a successful
lookup on the substring of length `maxLen` at the cursor returns a table
entry that is a prefix of the remaining input, of length at most `maxLen`,
and no table entry of permitted length that is a prefix of the remaining
input is longer. -/
theorem shrinkLookup_longest (mem : List Char → Bool) (maxLen : Nat) (rem op : List Char)
    (h : shrinkLookup mem (rem.take maxLen) = some op) :
    mem op = true ∧ rem.take op.length = op ∧ op.length ≤ maxLen ∧
      ∀ k, mem k = true → k.length ≤ maxLen → rem.take k.length = k →
        k.length ≤ op.length := by
  unfold shrinkLookup at h
  obtain ⟨h1, h2, h3⟩ := shrinkLookupAux_spec _ _ _ rfl _ h
  have htclen : (rem.take maxLen).length ≤ maxLen := by
    rw [List.length_take]
    omega
  have hoplen : op.length ≤ (rem.take maxLen).length := by
    have hl := congrArg List.length h2
    rw [List.length_take] at hl
    omega
  have hople : op.length ≤ maxLen := le_trans hoplen htclen
  have hprefix : rem.take op.length = op := by
    conv_rhs => rw [← h2]
    rw [List.take_take]
    congr 1
    omega
  refine ⟨h1, hprefix, hople, ?_⟩
  intro k hk hklen hkpre
  apply h3 k hk
  rw [List.take_take]
  have hmin : min k.length maxLen = k.length := by omega
  rw [hmin]
  exact hkpre

/-- The engine invariant: every expression produced by any sub-production is
compound-free and has identifier-production properties on all of its static
member accesses.  Proved for all the mutually recursive productions at once by
induction on the fuel. -/
theorem gobbleInv (p : Parser) : ∀ fuel : Nat,
    (∀ st r, gobbleExpression p fuel st = .ok r → OptInv r.1) ∧
    (∀ st r, gobbleBinaryExpression p fuel st = .ok r → OptInv r.1) ∧
    (∀ exprs ops st r, gobbleBinLoop p fuel exprs ops st = .ok r → AllInv exprs → AllInv r.1) ∧
    (∀ st r, gobbleToken p fuel st = .ok r → OptInv r.1) ∧
    (∀ st r, gobbleVariable p fuel st = .ok r → OptInv r.1) ∧
    (∀ node st r, gobbleVarLoop p fuel node st = .ok r → NodeInv node → NodeInv r.1) ∧
    (∀ st r, gobbleGroup p fuel st = .ok r → OptInv r.1) ∧
    (∀ a b st r, gobbleArguments p fuel a b st = .ok r → AllInv r.1) ∧
    (∀ a b args hc st r, gobbleArgsLoop p fuel a b args hc st = .ok r → AllInv args → AllInv r.1) ∧
    (∀ st r, gobbleArray p fuel st = .ok r → NodeInv r.1) := by
  intro fuel
  induction fuel with
  | zero =>
    refine ⟨?_, ?_, ?_, ?_, ?_, ?_, ?_, ?_, ?_, ?_⟩ <;> intro _ _ <;> intros <;>
      simp_all [gobbleExpression, gobbleBinaryExpression, gobbleBinLoop, gobbleToken,
        gobbleVariable, gobbleVarLoop, gobbleGroup, gobbleArguments, gobbleArgsLoop,
        gobbleArray]
  | succ fuel ih =>
    obtain ⟨ihE, ihB, ihL, ihT, ihV, ihVL, ihG, ihA, ihAL, ihAr⟩ := ih
    have stepE : ∀ st r, gobbleExpression p (fuel + 1) st = .ok r → OptInv r.1 := by
      intro st r h
      unfold gobbleExpression at h
      split at h
      · exact ihB _ _ h
      · obtain ⟨⟨test?, st1⟩, hbe, h⟩ := exceptBind_ok h
        simp only [] at h
        split at h
        · cases h; trivial
        · rename_i test
          split at h
          · cases h; exact OptInv_some (ihB _ _ hbe)
          · obtain ⟨⟨consequent?, st2⟩, hce, h⟩ := exceptBind_ok h
            simp only [] at h
            split at h
            · simp at h
            · rename_i consequent
              split at h
              · simp at h
              · obtain ⟨⟨alternate?, st3⟩, hae, h⟩ := exceptBind_ok h
                simp only [] at h
                split at h
                · simp at h
                · rename_i alternate
                  cases h
                  exact NodeInv_conditional (OptInv_some (ihB _ _ hbe))
                    (OptInv_some (ihE _ _ hce)) (OptInv_some (ihE _ _ hae))
    have stepB : ∀ st r, gobbleBinaryExpression p (fuel + 1) st = .ok r → OptInv r.1 := by
      intro st r h
      unfold gobbleBinaryExpression at h
      obtain ⟨⟨left?, st1⟩, ht, h⟩ := exceptBind_ok h
      simp only [] at h
      split at h
      · cases h; trivial
      · rename_i left
        obtain ⟨⟨exprs, ops, st2⟩, hl, h⟩ := exceptBind_ok h
        simp only [] at h
        split at h
        · simp at h
        · rename_i node rest
          cases h
          have hall : AllInv (node :: rest) :=
            ihL _ _ _ _ hl (AllInv_cons (OptInv_some (ihT _ _ ht)) AllInv_nil)
          exact foldStack_inv _ _ _ (hall _ (by simp)) (fun x hx => hall _ (by simp [hx]))
    have stepL : ∀ exprs ops st r, gobbleBinLoop p (fuel + 1) exprs ops st = .ok r →
        AllInv exprs → AllInv r.1 := by
      intro exprs ops st r h hall
      unfold gobbleBinLoop at h
      split at h
      · cases h; exact hall
      · rename_i value st1 heq
        simp only [] at h
        split at h
        · cases h; exact hall
        · obtain ⟨⟨node?, st2⟩, ht, h⟩ := exceptBind_ok h
          simp only [] at h
          split at h
          · simp at h
          · rename_i node
            exact ihL _ _ _ _ h
              (AllInv_cons (OptInv_some (ihT _ _ ht))
                (reduceStack_inv _ _ _ hall))
    have stepT : ∀ st r, gobbleToken p (fuel + 1) st = .ok r → OptInv r.1 := by
      intro st r h
      unfold gobbleToken at h
      simp only [] at h
      split at h
      · obtain ⟨⟨e, st1⟩, hn, h⟩ := exceptBind_ok h
        cases h
        exact NodeInv_of_literal (gobbleNumericLiteral_shape hn)
      · split at h
        · obtain ⟨⟨e, st1⟩, hs, h⟩ := exceptBind_ok h
          cases h
          exact NodeInv_of_literal (gobbleStringLiteral_shape hs)
        · split at h
          · obtain ⟨⟨e, st1⟩, ha, h⟩ := exceptBind_ok h
            cases h
            exact ihAr _ _ ha
          · split at h
            · rename_i op
              obtain ⟨⟨argument?, st1⟩, ha, h⟩ := exceptBind_ok h
              simp only [] at h
              split at h
              · simp at h
              · rename_i argument
                cases h
                exact NodeInv_unary (OptInv_some (ihT _ _ ha))
            · split at h
              · exact ihV _ _ h
              · cases h; trivial
    have stepV : ∀ st r, gobbleVariable p (fuel + 1) st = .ok r → OptInv r.1 := by
      intro st r h
      unfold gobbleVariable at h
      split at h
      · obtain ⟨⟨node?, st1⟩, hg, h⟩ := exceptBind_ok h
        simp only [] at h
        split at h
        · cases h; trivial
        · rename_i node
          obtain ⟨⟨node2, st2⟩, hvl, h⟩ := exceptBind_ok h
          cases h
          exact ihVL _ _ _ hvl (OptInv_some (ihG _ _ hg))
      · obtain ⟨⟨node, st1⟩, hid, h⟩ := exceptBind_ok h
        obtain ⟨⟨node2, st2⟩, hvl, h⟩ := exceptBind_ok h
        cases h
        exact ihVL _ _ _ hvl (NodeInv_of_identOrNamed (gobbleIdentifier_shape hid))
    have stepVL : ∀ node st r, gobbleVarLoop p (fuel + 1) node st = .ok r →
        NodeInv node → NodeInv r.1 := by
      intro node st r h hn
      unfold gobbleVarLoop at h
      simp only [] at h
      split at h
      · obtain ⟨⟨prop, st1⟩, hid, h⟩ := exceptBind_ok h
        exact ihVL _ _ _ h
          (NodeInv_memberStatic hn (NodeInv_of_identOrNamed (gobbleIdentifier_shape hid))
            (gobbleIdentifier_shape hid))
      · split at h
        · obtain ⟨⟨prop?, st1⟩, he, h⟩ := exceptBind_ok h
          simp only [] at h
          split at h
          · simp at h
          · rename_i prop
            split at h
            · simp at h
            · exact ihVL _ _ _ h (NodeInv_memberComputed hn (OptInv_some (ihE _ _ he)))
        · split at h
          · obtain ⟨⟨args, st1⟩, ha, h⟩ := exceptBind_ok h
            exact ihVL _ _ _ h (NodeInv_call hn (ihA _ _ _ _ ha))
          · cases h; exact hn
    have stepG : ∀ st r, gobbleGroup p (fuel + 1) st = .ok r → OptInv r.1 := by
      intro st r h
      unfold gobbleGroup at h
      obtain ⟨⟨node?, st1⟩, he, h⟩ := exceptBind_ok h
      simp only [] at h
      split at h
      · simp at h
      · cases h
        have hx := ihE _ _ he
        exact hx
    have stepAL : ∀ a b args hc st r, gobbleArgsLoop p (fuel + 1) a b args hc st = .ok r →
        AllInv args → AllInv r.1 := by
      intro a b args hc st r h hargs
      unfold gobbleArgsLoop at h
      split at h
      · simp only [] at h
        split at h
        · cases h; exact hargs
        · split at h
          · split at h
            · simp at h
            · exact ihAL _ _ _ _ _ _ h hargs
          · split at h
            · split at h <;> simp at h
            · obtain ⟨⟨node?, st1⟩, he, h⟩ := exceptBind_ok h
              simp only [] at h
              split at h
              · simp at h
              · simp at h
              · rename_i node hne hnc
                exact ihAL _ _ _ _ _ _ h
                  (AllInv_append hargs (AllInv_cons (OptInv_some (ihE _ _ he)) AllInv_nil))
      · simp at h
    have stepA : ∀ a b st r, gobbleArguments p (fuel + 1) a b st = .ok r → AllInv r.1 := by
      intro a b st r h
      unfold gobbleArguments at h
      exact ihAL _ _ _ _ _ _ h AllInv_nil
    have stepAr : ∀ st r, gobbleArray p (fuel + 1) st = .ok r → NodeInv r.1 := by
      intro st r h
      unfold gobbleArray at h
      obtain ⟨⟨elems, st1⟩, ha, h⟩ := exceptBind_ok h
      cases h
      exact NodeInv_array (ihA _ _ _ _ ha)
    exact ⟨stepE, stepB, stepL, stepT, stepV, stepVL, stepG, stepA, stepAL, stepAr⟩

theorem gobbleCompoundLoop_inv (p : Parser) :
    ∀ (fuel : Nat) (nodes : List Expr) (st : State) (r : List Expr × State),
      gobbleCompoundLoop p fuel nodes st = .ok r → AllInv nodes → AllInv r.1 := by
  intro fuel
  induction fuel with
  | zero => intro nodes st r h; simp [gobbleCompoundLoop] at h
  | succ fuel ih =>
    intro nodes st r h hall
    unfold gobbleCompoundLoop at h
    split at h
    · simp only [] at h
      split at h
      · exact ih _ _ _ h hall
      · obtain ⟨⟨node?, st1⟩, he, h⟩ := exceptBind_ok h
        simp only [] at h
        split at h
        · cases h; exact hall
        · exact ih _ _ _ h
            (AllInv_append hall
              (AllInv_cons (OptInv_some ((gobbleInv p fuel).1 _ _ he)) AllInv_nil))
    · cases h; exact hall

theorem Parse_rootOk (p : Parser) (s : List Char) (e : Expr) (h : Parse p s = .ok e) :
    parseRootOk p e := by
  unfold Parse gobbleCompound at h
  obtain ⟨⟨nodes, st1⟩, hl, h⟩ := exceptBind_ok h
  simp only [] at h
  split at h
  · simp at h
  · have hall : AllInv nodes := gobbleCompoundLoop_inv p _ _ _ _ hl AllInv_nil
    split at h
    · rename_i nodes2 node
      have hcf : compoundFree e = true := by
        injection h with he
        exact he ▸ (hall _ (by simp)).1
      cases e
      case compound => simp [compoundFree] at hcf
      all_goals simpa [parseRootOk] using hcf
    · rename_i nodes2 hne
      split at h
      · simp at h
      · rename_i hcomp
        cases h
        refine ⟨by simpa using hcomp, ?_, (AllInv_list hall).1⟩
        intro hlen1
        obtain ⟨a, ha⟩ := List.length_eq_one.mp hlen1
        exact hne a ha

theorem Parse_memberOk (p : Parser) (s : List Char) (e : Expr) (h : Parse p s = .ok e) :
    memberOk e = true := by
  unfold Parse gobbleCompound at h
  obtain ⟨⟨nodes, st1⟩, hl, h⟩ := exceptBind_ok h
  simp only [] at h
  split at h
  · simp at h
  · have hall : AllInv nodes := gobbleCompoundLoop_inv p _ _ _ _ hl AllInv_nil
    split at h
    · rename_i nodes2 node
      injection h with he
      exact he ▸ (hall _ (by simp)).2
    · split at h
      · simp at h
      · cases h
        simpa [memberOk] using (AllInv_list hall).2

theorem gobbleNumericLiteral_no_idstart {p : Parser} {st : State} {e : Expr} {st' : State}
    (h : gobbleNumericLiteral p st = .ok (e, st')) :
    isIdentifierStart (charAt st') = false := by
  unfold gobbleNumericLiteral at h
  obtain ⟨⟨number, st1⟩, -, h⟩ := exceptBind_ok h
  simp only [] at h
  split at h
  · simp at h
  · rename_i hid
    split at h
    · simp at h
    · cases h
      simpa using hid

/-! ## The merge semantics of `SetConfig`

`specMergedConfig` is written from the specification's description of the
merge ("merges only the fields present in the supplied partial structure into
the active configuration, leaving unspecified fields untouched"); the theorems
below show the implementation realises it. -/

/-- Modelled from the spec: field-wise merge of a partial `Members` record. -/
def specMergedMembers (m : MembersConfig) (pm : PartialMembersConfig) : MembersConfig :=
  { static := pm.static.getD m.static
    computed := pm.computed.getD m.computed }

/-- Modelled from the spec: field-wise merge of a partial `Literals` record. -/
def specMergedLiteralsF (l : LiteralsConfig) (pl : PartialLiteralsConfig) : LiteralsConfig :=
  { numeric := pl.numeric.getD l.numeric
    numericSeparator := pl.numericSeparator.getD l.numericSeparator
    string := pl.string.getD l.string
    array := pl.array.getD l.array }

/-- Modelled from the spec: field-wise merge of a partial `Features` record. -/
def specMergedFeatures (f : FeaturesConfig) (pf : PartialFeaturesConfig) : FeaturesConfig :=
  { compound := pf.compound.getD f.compound
    conditional := pf.conditional.getD f.conditional
    identifiers := pf.identifiers.getD f.identifiers
    calls := pf.calls.getD f.calls
    members :=
      match pf.members with
      | none => f.members
      | some pm => specMergedMembers f.members pm
    literals :=
      match pf.literals with
      | none => f.literals
      | some pl => specMergedLiteralsF f.literals pl }

/-- Modelled from the spec: field-wise merge of a partial `Operators` record. -/
def specMergedOperators (o : OperatorsConfig) (po : PartialOperatorsConfig) : OperatorsConfig :=
  { literals := po.literals.getD o.literals
    unary := po.unary.getD o.unary
    binary := po.binary.getD o.binary }

/-- Modelled from the spec: field-wise merge of a partial configuration. -/
def specMergedConfig (c : Config) (pc : PartialConfig) : Config :=
  { operators :=
      match pc.operators with
      | none => c.operators
      | some po => specMergedOperators c.operators po
    features :=
      match pc.features with
      | none => c.features
      | some pf => specMergedFeatures c.features pf }

/-- The derived maximum spelling lengths agree with the current operator
tables. -/
def lengthsWf (p : Parser) : Prop :=
  p.unaryOperatorLength = getMaxMemLen p.config.operators.unary ∧
  p.binaryOperatorLength = getMaxKeyLen p.config.operators.binary

theorem foldl_max_init_le : ∀ (l : List Nat) (a : Nat), a ≤ l.foldl max a := by
  intro l
  induction l with
  | nil => intro a; simp
  | cons y ys ih =>
    intro a
    simp only [List.foldl_cons]
    exact le_trans (le_max_left a y) (ih (max a y))

theorem foldl_max_le : ∀ (l : List Nat) (a x : Nat), x ∈ l → x ≤ l.foldl max a := by
  intro l
  induction l with
  | nil => intro a x hx; cases hx
  | cons y ys ih =>
    intro a x hx
    cases hx with
    | head =>
      simp only [List.foldl_cons]
      exact le_trans (le_max_right a y) (foldl_max_init_le ys (max a y))
    | tail _ hx => exact ih _ _ hx

theorem foldl_max_attained : ∀ (l : List Nat) (a : Nat), l.foldl max a = a ∨ l.foldl max a ∈ l := by
  intro l
  induction l with
  | nil => intro a; left; rfl
  | cons y ys ih =>
    intro a
    simp only [List.foldl_cons]
    rcases ih (max a y) with h | h
    · rcases Nat.le_total y a with hya | hay
      · left; rw [h, Nat.max_eq_left hya]
      · right; rw [h, Nat.max_eq_right hay]; exact List.mem_cons_self y ys
    · right; exact List.mem_cons_of_mem y h

theorem getMaxMemLen_ub (ary : List (List Char)) :
    ∀ k ∈ ary, k.length ≤ getMaxMemLen ary := by
  intro k hk
  cases ary with
  | nil => cases hk
  | cons y ys =>
    exact foldl_max_le _ 0 _ (List.mem_map.mpr ⟨k, hk, rfl⟩)

theorem getMaxMemLen_attained (ary : List (List Char)) (h : ary ≠ []) :
    ∃ k ∈ ary, k.length = getMaxMemLen ary := by
  cases ary with
  | nil => exact absurd rfl h
  | cons y ys =>
    have hm := foldl_max_attained ((y :: ys).map (fun k => k.length)) 0
    rcases hm with hz | hmem
    · refine ⟨y, by simp, ?_⟩
      have hy := foldl_max_le ((y :: ys).map (fun k => k.length)) 0 y.length
        (List.mem_map.mpr ⟨y, by simp, rfl⟩)
      simp only [getMaxMemLen]
      omega
    · obtain ⟨k, hk, hkl⟩ := List.mem_map.mp hmem
      exact ⟨k, hk, hkl⟩

theorem getMaxKeyLen_ub (o : List (List Char × Int)) :
    ∀ kv ∈ o, kv.1.length ≤ getMaxKeyLen o := by
  intro kv hkv
  cases o with
  | nil => cases hkv
  | cons y ys =>
    exact foldl_max_le _ 0 _ (List.mem_map.mpr ⟨kv, hkv, rfl⟩)

theorem getMaxKeyLen_attained (o : List (List Char × Int)) (h : o ≠ []) :
    ∃ kv ∈ o, kv.1.length = getMaxKeyLen o := by
  cases o with
  | nil => exact absurd rfl h
  | cons y ys =>
    have hm := foldl_max_attained ((y :: ys).map (fun kv => kv.1.length)) 0
    rcases hm with hz | hmem
    · refine ⟨y, by simp, ?_⟩
      have hy := foldl_max_le ((y :: ys).map (fun kv => kv.1.length)) 0 y.1.length
        (List.mem_map.mpr ⟨y, by simp, rfl⟩)
      simp only [getMaxKeyLen]
      omega
    · obtain ⟨kv, hkv, hkl⟩ := List.mem_map.mp hmem
      exact ⟨kv, hkv, hkl⟩

theorem setConfigOperators_eq (p : Parser) (po : PartialOperatorsConfig) :
    setConfigOperators p po =
      { config :=
          { operators := specMergedOperators p.config.operators po
            features := p.config.features }
        unaryOperatorLength :=
          match po.unary with
          | none => p.unaryOperatorLength
          | some u => getMaxMemLen u
        binaryOperatorLength :=
          match po.binary with
          | none => p.binaryOperatorLength
          | some b => getMaxKeyLen b } := by
  obtain ⟨l?, u?, b?⟩ := po
  cases l? <;> cases u? <;> cases b? <;> rfl

theorem setConfigMembers_eq (p : Parser) (pm : PartialMembersConfig) :
    setConfigMembers p pm =
      { p with config.features.members := specMergedMembers p.config.features.members pm } := by
  obtain ⟨s?, c?⟩ := pm
  cases s? <;> cases c? <;> rfl

theorem setConfigLiteralsF_eq (p : Parser) (pl : PartialLiteralsConfig) :
    setConfigLiteralsF p pl =
      { p with config.features.literals := specMergedLiteralsF p.config.features.literals pl } := by
  obtain ⟨n?, s?, st?, a?⟩ := pl
  cases n? <;> cases s? <;> cases st? <;> cases a? <;> rfl

theorem setConfigFeatures_eq (p : Parser) (pf : PartialFeaturesConfig) :
    setConfigFeatures p pf =
      { p with config.features := specMergedFeatures p.config.features pf } := by
  obtain ⟨c?, d?, i?, k?, m?, l?⟩ := pf
  cases c? <;> cases d? <;> cases i? <;> cases k? <;> cases m? <;> cases l? <;>
    simp [setConfigFeatures, specMergedFeatures, setConfigMembers_eq, setConfigLiteralsF_eq]

theorem SetConfig_some_config (p : Parser) (pc : PartialConfig) :
    (SetConfig p (some pc)).1.config = specMergedConfig p.config pc := by
  obtain ⟨o?, f?⟩ := pc
  cases o? <;> cases f? <;>
    simp [SetConfig, specMergedConfig, setConfigOperators_eq, setConfigFeatures_eq]

theorem SetConfig_wf (p : Parser) (c : Option PartialConfig) (h : lengthsWf p) :
    lengthsWf (SetConfig p c).1 := by
  cases c with
  | none => exact h
  | some pc =>
    obtain ⟨o?, f?⟩ := pc
    have hbase :
        lengthsWf (match o? with | none => p | some po => setConfigOperators p po) := by
      cases o? with
      | none => exact h
      | some po =>
        obtain ⟨l?, u?, b?⟩ := po
        obtain ⟨h1, h2⟩ := h
        cases l? <;> cases u? <;> cases b? <;>
          exact ⟨by simp [setConfigOperators, lengthsWf, h1], by simp [setConfigOperators, lengthsWf, h2]⟩
    cases f? with
    | none => exact hbase
    | some pf =>
      show lengthsWf (setConfigFeatures _ pf)
      rw [setConfigFeatures_eq]
      exact ⟨hbase.1, hbase.2⟩

/-! ## Claim theorems -/

/-- C1: the spec claims equal-precedence binary operators are reduced
left-associatively ("reduce while the pending precedence is not less than the
incoming one"), with `Parse("2-3-4")` left-nested.  The code reduces only on
*strictly greater* pending precedence (`precedence < ops[-1]["precedence"]`),
so the equal-precedence chain ends up right-nested in the final fold:
`Parse("2-3-4")` returns `2 - (3 - 4)`, not `(2 - 3) - 4`.  The
differing-precedence example `Parse("2+3*4")` behaves as claimed. -/
theorem claim_C1 :
    Parse initParser (chars "2-3-4") =
      .ok (.binary (chars "-") (numLit 2 "2")
        (.binary (chars "-") (numLit 3 "3") (numLit 4 "4")))
    ∧ Parse initParser (chars "2-3-4") ≠
      .ok (.binary (chars "-") (.binary (chars "-") (numLit 2 "2") (numLit 3 "3"))
        (numLit 4 "4"))
    ∧ Parse initParser (chars "2+3*4") =
      .ok (.binary (chars "+") (numLit 2 "2")
        (.binary (chars "*") (numLit 3 "3") (numLit 4 "4"))) := by
  refine ⟨rfl, ?_, rfl⟩
  intro hcontra
  have hval : Parse initParser (chars "2-3-4") =
      .ok (.binary (chars "-") (numLit 2 "2")
        (.binary (chars "-") (numLit 3 "3") (numLit 4 "4"))) := rfl
  rw [hval] at hcontra
  simp [numLit] at hcontra

/-- C2: the spec claims that a postfix trigger with its feature disabled is a
fatal error naming the construct ("unexpected function call").  In the code
the feature flag is part of the trigger condition, so the suffix loop simply
stops; `f(1)` with `Calls = false` then parses as the compound of the
identifier `f` and the parenthesized group `(1)` — no error at all. -/
theorem claim_C2 :
    noCallsParser.config.features.calls = false
    ∧ Parse noCallsParser (chars "f(1)") =
        .ok (.compound [.identifier (chars "f"), numLit 1 "1"]) :=
  ⟨rfl, rfl⟩

/-- C3: the spec claims every failure is a positioned `ParsingError` and that
no other exception kind escapes `Parse` (and `TryParse` converts exactly
those).  On the input `"."` the numeric gobbler consumes the period, builds
the digit-free string `"."` and calls `float(".")`, which raises a plain
`ValueError` that neither `Parse` nor `TryParse` catches. -/
theorem claim_C3 :
    Parse initParser (chars ".") = .error (.valueError (chars "."))
    ∧ TryParse initParser (chars ".") = .error (.valueError (chars ".")) :=
  ⟨rfl, rfl⟩

/-- C4 counterexample: a succeeding parse *can* return a `Compound` root with
fewer than two body elements — the empty input yields `Compound(body=[])`. -/
theorem claim_C4_counterexample :
    Parse initParser (chars "") = .ok (.compound []) := rfl

/-- C4 (amended): on success a `Compound` appears only at the parse root,
only when the feature is enabled, never with exactly one element and never
nested (children are compound-free); a single top-level expression is
returned unwrapped (`Parse("1") = Literal 1`,
`Parse("1;2") = Compound [1, 2]`).  A `Compound` root with fewer than two
elements does occur when zero top-level expressions were found. -/
theorem claim_C4 :
    (∀ (p : Parser) (s : List Char) (e : Expr), Parse p s = .ok e → parseRootOk p e)
    ∧ Parse initParser (chars "1") = .ok (numLit 1 "1")
    ∧ Parse initParser (chars "1;2") = .ok (.compound [numLit 1 "1", numLit 2 "2"]) :=
  ⟨Parse_rootOk, rfl, rfl⟩

theorem claim_C4_witness :
    parseRootOk initParser (.compound [numLit 1 "1", numLit 2 "2"]) :=
  claim_C4.1 initParser (chars "1;2") (.compound [numLit 1 "1", numLit 2 "2"]) rfl

/-- C5 counterexample: when the identifier after `.` spells a configured
literal name, the property of the static member access is a `Literal` node,
not an `Identifier`: `Parse("a.true")`. -/
theorem claim_C5_counterexample :
    Parse initParser (chars "a.true") =
      .ok (.member false (.identifier (chars "a"))
        (.literal (.bool true) (chars "true") none))
    ∧ isIdentifierNode (.literal (.bool true) (chars "true") none) = false :=
  ⟨rfl, rfl⟩

/-- C5 (amended): in every successfully parsed tree, the property of every
static member access is what the identifier production returns: an
`Identifier` node, or a kind-less `Literal` node when the name is a
configured literal — never any other expression. -/
theorem claim_C5 (p : Parser) (s : List Char) (e : Expr) (h : Parse p s = .ok e) :
    memberOk e = true :=
  Parse_memberOk p s e h

theorem claim_C5_witness :
    memberOk (.member false (.identifier (chars "a")) (.identifier (chars "b"))) = true :=
  claim_C5 initParser (chars "a.b")
    (.member false (.identifier (chars "a")) (.identifier (chars "b"))) rfl

/-- C6: operator scanning is longest-match for both operator tables.
(1) A successful `__gobbleBinaryOp` returns a configured binary spelling that
is a prefix of the remaining input (after space skipping), no longer
configured spelling of permitted length is such a prefix, and the cursor
advances by exactly the match length.  (2) The unary lookup of
`__gobbleToken` — the same shrink loop over the unary set with the derived
maximum unary length — has the same longest-match property at any cursor.
(3) When that unary lookup matches inside `__gobbleToken`, the argument is
gobbled from the cursor advanced by exactly the match length and the result
is the unary wrap of it. -/
theorem claim_C6 :
    (∀ (p : Parser) (st : State) (op : List Char) (st' : State),
        gobbleBinaryOp p st = (some op, st') →
        (assocLookup p.config.operators.binary op).isSome = true
        ∧ ((gobbleSpaces st).expr.drop (gobbleSpaces st).index).take op.length = op
        ∧ op.length ≤ p.binaryOperatorLength
        ∧ (∀ k, (assocLookup p.config.operators.binary k).isSome = true →
            k.length ≤ p.binaryOperatorLength →
            ((gobbleSpaces st).expr.drop (gobbleSpaces st).index).take k.length = k →
            k.length ≤ op.length)
        ∧ st'.expr = st.expr
        ∧ st'.index = (gobbleSpaces st).index + op.length)
    ∧ (∀ (p : Parser) (st : State) (op : List Char),
        shrinkLookup (fun k => memList p.config.operators.unary k)
            ((st.expr.drop st.index).take p.unaryOperatorLength) = some op →
        memList p.config.operators.unary op = true
        ∧ (st.expr.drop st.index).take op.length = op
        ∧ op.length ≤ p.unaryOperatorLength
        ∧ (∀ k, memList p.config.operators.unary k = true →
            k.length ≤ p.unaryOperatorLength →
            (st.expr.drop st.index).take k.length = k →
            k.length ≤ op.length))
    ∧ (∀ (p : Parser) (fuel : Nat) (st : State) (op : List Char) (arg : Expr) (st₁ : State),
        ¬(p.config.features.literals.numeric = true ∧
            (isDecimalDigit (charAt (gobbleSpaces st)) = true ∨
              charAt (gobbleSpaces st) = some '.')) →
        ¬(p.config.features.literals.string = true ∧
            (charAt (gobbleSpaces st) = some '\'' ∨ charAt (gobbleSpaces st) = some '"')) →
        ¬(p.config.features.literals.array = true ∧ charAt (gobbleSpaces st) = some '[') →
        shrinkLookup (fun k => memList p.config.operators.unary k)
            (((gobbleSpaces st).expr.drop (gobbleSpaces st).index).take p.unaryOperatorLength) =
          some op →
        gobbleToken p fuel
            { gobbleSpaces st with index := (gobbleSpaces st).index + op.length } =
          .ok (some arg, st₁) →
        gobbleToken p (fuel + 1) st = .ok (some (.unary op arg), st₁)) := by
  refine ⟨?_, ?_, ?_⟩
  · intro p st op st' h
    unfold gobbleBinaryOp at h
    simp only [] at h
    set st0 := gobbleSpaces st with hst0
    set rem := st0.expr.drop st0.index with hrem
    set tc := rem.take p.binaryOperatorLength with htc
    cases hsl : shrinkLookup (fun k => (assocLookup p.config.operators.binary k).isSome) tc with
    | none => rw [hsl] at h; simp at h
    | some op0 =>
      rw [hsl] at h
      injection h with h1 h2
      injection h1 with h1
      subst h1
      subst h2
      rw [htc] at hsl
      obtain ⟨hmem, hpre, hlen, hmax⟩ := shrinkLookup_longest _ _ _ _ hsl
      refine ⟨hmem, hpre, hlen, hmax, ?_, rfl⟩
      show st0.expr = st.expr
      rw [hst0]
      exact gobbleSpaces_expr st
  · intro p st op h
    exact shrinkLookup_longest _ _ _ _ h
  · intro p fuel st op arg st₁ h1 h2 h3 hsl hArg
    unfold gobbleToken
    simp only []
    rw [if_neg h1, if_neg h2, if_neg h3, hsl]
    simp only [hArg]
    rfl

theorem claim_C6_witness :
    gobbleBinaryOp initParser { expr := chars ">>>", index := 0 } =
      (some (chars ">>>"), { expr := chars ">>>", index := 3 })
    ∧ (assocLookup initParser.config.operators.binary (chars ">>>")).isSome = true
    ∧ (chars ">>>").length ≤ initParser.binaryOperatorLength
    ∧ ({ expr := chars ">>>", index := 3 } : State).index =
        (gobbleSpaces { expr := chars ">>>", index := 0 }).index + (chars ">>>").length
    ∧ memList c6UnaryParser.config.operators.unary (chars "!!") = true
    ∧ (chars "!!").length ≤ c6UnaryParser.unaryOperatorLength
    ∧ gobbleToken c6UnaryParser 6 { expr := chars "!!1", index := 0 } =
        .ok (some (.unary (chars "!!") (numLit 1 "1")), { expr := chars "!!1", index := 3 }) := by
  have hb : gobbleBinaryOp initParser { expr := chars ">>>", index := 0 } =
      (some (chars ">>>"), { expr := chars ">>>", index := 3 }) := rfl
  have hsb := claim_C6.1 initParser { expr := chars ">>>", index := 0 } (chars ">>>")
    { expr := chars ">>>", index := 3 } hb
  have hsu := claim_C6.2.1 c6UnaryParser { expr := chars "!!1", index := 0 } (chars "!!") rfl
  have hc := claim_C6.2.2 c6UnaryParser 5 { expr := chars "!!1", index := 0 } (chars "!!")
    (numLit 1 "1") { expr := chars "!!1", index := 3 } (by decide) (by decide) (by decide)
    rfl rfl
  exact ⟨hb, hsb.1, hsb.2.2.1, hsb.2.2.2.2.2, hsu.1, hsu.2.2.1, hc⟩

/-- C7: a numeric literal gobble can only succeed when the character after it
is not an identifier-start character (otherwise the "Variable names cannot
start with a number" error is raised); in particular `Parse("123abc")` fails
with exactly that positioned error. -/
theorem claim_C7 :
    (∀ (p : Parser) (st : State) (e : Expr) (st' : State),
        gobbleNumericLiteral p st = .ok (e, st') →
        isIdentifierStart (charAt st') = false)
    ∧ Parse initParser (chars "123abc") =
        .error (.parsing (chars "Variable names cannot start with a number like \"123a\"")
          (chars "123abc") 3) :=
  ⟨fun _ _ _ _ h => gobbleNumericLiteral_no_idstart h, rfl⟩

theorem claim_C7_witness :
    isIdentifierStart (charAt { expr := chars "123", index := 3 }) = false :=
  claim_C7.1 initParser { expr := chars "123", index := 0 } (numLit 123 "123")
    { expr := chars "123", index := 3 } rfl

/-- C8: `SetConfig` merges exactly the present fields (the result equals the
spec-side field-wise merge `specMergedConfig`), returns the resulting full
configuration, and afterwards both derived maximum lengths equal the true
maximum spelling length of the corresponding table (`0` when empty, an upper
bound that is attained otherwise). -/
theorem claim_C8 (p : Parser) (pc : PartialConfig) (hwf : lengthsWf p) :
    (SetConfig p (some pc)).2 = GetConfig (SetConfig p (some pc)).1
    ∧ (SetConfig p (some pc)).1.config = specMergedConfig p.config pc
    ∧ lengthsWf (SetConfig p (some pc)).1
    ∧ (∀ k ∈ (SetConfig p (some pc)).1.config.operators.unary,
        k.length ≤ (SetConfig p (some pc)).1.unaryOperatorLength)
    ∧ ((SetConfig p (some pc)).1.config.operators.unary = [] →
        (SetConfig p (some pc)).1.unaryOperatorLength = 0)
    ∧ ((SetConfig p (some pc)).1.config.operators.unary ≠ [] →
        ∃ k ∈ (SetConfig p (some pc)).1.config.operators.unary,
          k.length = (SetConfig p (some pc)).1.unaryOperatorLength)
    ∧ (∀ kv ∈ (SetConfig p (some pc)).1.config.operators.binary,
        kv.1.length ≤ (SetConfig p (some pc)).1.binaryOperatorLength)
    ∧ ((SetConfig p (some pc)).1.config.operators.binary = [] →
        (SetConfig p (some pc)).1.binaryOperatorLength = 0)
    ∧ ((SetConfig p (some pc)).1.config.operators.binary ≠ [] →
        ∃ kv ∈ (SetConfig p (some pc)).1.config.operators.binary,
          kv.1.length = (SetConfig p (some pc)).1.binaryOperatorLength) := by
  have hw := SetConfig_wf p (some pc) hwf
  refine ⟨rfl, SetConfig_some_config p pc, hw, ?_, ?_, ?_, ?_, ?_, ?_⟩
  · intro k hk; rw [hw.1]; exact getMaxMemLen_ub _ k hk
  · intro hempty; rw [hw.1, hempty]; rfl
  · intro hne; rw [hw.1]; exact getMaxMemLen_attained _ hne
  · intro kv hkv; rw [hw.2]; exact getMaxKeyLen_ub _ kv hkv
  · intro hempty; rw [hw.2, hempty]; rfl
  · intro hne; rw [hw.2]; exact getMaxKeyLen_attained _ hne

/-- A partial configuration replacing only the unary operator table, for the
C8 witness. -/
def c8PartialW : PartialConfig :=
  { operators := some { unary := some [chars "ab", chars "c"] } }

theorem claim_C8_witness :
    lengthsWf (SetConfig initParser (some c8PartialW)).1
    ∧ (SetConfig initParser (some c8PartialW)).1.config =
        specMergedConfig initParser.config c8PartialW := by
  have h := claim_C8 initParser c8PartialW ⟨rfl, rfl⟩
  exact ⟨h.2.2.1, h.2.1⟩

/-- C9 counterexample: the literal-table copy made by `GetConfig` shares the
literal value objects (`dict.copy()` is shallow, modelled by the copy keeping
the same addresses), so mutating the shared mutable value at address `0`
in place changes what a subsequent `Parse` of the literal name returns. -/
theorem claim_C9_counterexample :
    copyLiteralsDict aliasLits = aliasLits
    ∧ Parse (parserOfHeap initParser aliasLits
          (mutate aliasStore 0 (.list [.num ⟨1, 0⟩, .num ⟨2, 0⟩]))) (chars "x")
        ≠ Parse (parserOfHeap initParser aliasLits aliasStore) (chars "x") := by
  refine ⟨rfl, ?_⟩
  intro hcontra
  have h1 : Parse (parserOfHeap initParser aliasLits
      (mutate aliasStore 0 (.list [.num ⟨1, 0⟩, .num ⟨2, 0⟩]))) (chars "x") =
      .ok (.literal (.list [.num ⟨1, 0⟩, .num ⟨2, 0⟩]) (chars "x") none) := rfl
  have h2 : Parse (parserOfHeap initParser aliasLits aliasStore) (chars "x") =
      .ok (.literal (.list [.num ⟨1, 0⟩]) (chars "x") none) := rfl
  rw [h1, h2] at hcontra
  simp at hcontra

/-- C9 (amended): the configuration copy is structurally fresh but shares the
literal value objects.  Mutating an object not referenced by the parser's
literal table leaves the parser's view unchanged, while in-place mutation of
the shared object behind a literal name changes what every subsequent `Parse`
of that name returns. -/
theorem claim_C9 :
    (∀ (lits : HeapLiterals) (store : Store) (a : Addr) (v : Value),
        (∀ kv ∈ lits, kv.2 ≠ a) →
        derefLiterals lits (mutate store a v) = derefLiterals lits store)
    ∧ (∀ (store : Store) (v : Value),
        Parse (parserOfHeap initParser aliasLits (mutate store 0 v)) (chars "x") =
          .ok (.literal v (chars "x") none)) := by
  constructor
  · intro lits store a v hnot
    induction lits with
    | nil => rfl
    | cons kv rest ih =>
      have hk : kv.2 ≠ a := hnot kv (by simp)
      have hrest := ih (fun x hx => hnot x (by simp [hx]))
      simp only [derefLiterals, List.map_cons] at hrest ⊢
      rw [show mutate store a v kv.2 = store kv.2 from if_neg hk]
      rw [hrest]
  · intro store v
    rfl

theorem claim_C9_witness :
    derefLiterals aliasLits (mutate aliasStore 5 Value.null) =
      derefLiterals aliasLits aliasStore
    ∧ Parse (parserOfHeap initParser aliasLits (mutate aliasStore 0 Value.null)) (chars "x") =
        .ok (.literal Value.null (chars "x") none) :=
  ⟨claim_C9.1 aliasLits aliasStore 5 Value.null (by decide),
    claim_C9.2 aliasStore Value.null⟩

/-- C10: when the scanned binary operator has configured precedence `0`, the
shunting loop stops right after consuming the operator's characters (the
post-scan state) without recording it; consequently with `Binary = {"+": 0}`
and `Compound` enabled, `Parse("1+2")` returns `Compound [1, 2]`. -/
theorem claim_C10 :
    (∀ (p : Parser) (fuel : Nat) (exprs : List Expr) (ops : List (List Char × Int))
        (st st₁ : State) (op : List Char),
        gobbleBinaryOp p st = (some op, st₁) → binaryPrecedence p op = 0 →
        gobbleBinLoop p (fuel + 1) exprs ops st = .ok (exprs, ops, st₁))
    ∧ prec0Parser.config.features.compound = true
    ∧ assocLookup prec0Parser.config.operators.binary (chars "+") = some 0
    ∧ Parse prec0Parser (chars "1+2") = .ok (.compound [numLit 1 "1", numLit 2 "2"]) := by
  refine ⟨?_, rfl, rfl, rfl⟩
  intro p fuel exprs ops st st₁ op h1 h0
  unfold gobbleBinLoop
  rw [h1]
  simp [h0]

theorem claim_C10_witness :
    gobbleBinLoop prec0Parser 1 [] [] { expr := chars "+", index := 0 } =
      .ok ([], [], { expr := chars "+", index := 1 }) :=
  claim_C10.1 prec0Parser 0 [] [] { expr := chars "+", index := 0 }
    { expr := chars "+", index := 1 } (chars "+") rfl rfl

end PreJsPy
